import Mathlib

/-!
# Verification of `RelayProfiler` (src/src/tools/RelayProfiler.js)

This file gives a shallow embedding of the two engines of `RelayProfiler`:

* the **instrument engine** (`instrument` / `invokeHandlers` /
  `instrumentedCallback`, lines 108–163 of the source): a wrapped function
  threads each invocation through the aggregate handlers registered under its
  name and the instance handlers attached to the wrapper, driven by a stack of
  invocation contexts `[aggRemaining, instRemaining, this, arguments, result]`;

* the **profile engine** (`profile` / `attachProfileHandler` /
  `detachProfileHandler` / `setEnableProfile`, lines 68–70 and 214–258): a
  registry of named profile handlers, gated by the global `enableProfile` flag.

Handlers in JavaScript are arbitrary closures receiving `(name, callback)`.
They are embedded as *scripts*: finite lists of actions a handler body can
perform that are observable to the engine — emitting a side effect, calling
the continuation `invokeHandlers`, or synchronously re-entering the wrapped
function.  A script may depend on the argument the wrapped function was called
with (modelling a handler that reads state set up by the caller, e.g. a
recursion guard).  The interpreter is fueled; fuel exhaustion is reported as a
distinguished error so every theorem about a completed run is conditioned on a
successful (`Except.ok`) outcome.  The trace of events performed by a run is
returned alongside the final context stack, in chronological order.

The exception thrown by the wrapper when the handler chain completes without
invoking the original function is modelled as the error value
`PErr.notInvoked`; JavaScript exception propagation (no `catch` anywhere in
the source) corresponds to short-circuiting the error outward while keeping
the side effects performed so far.

`__DEV__` is modelled as `true` (the development build, in which the
instrumentation is active; in production `instrument` returns the original
function unchanged).
-/

namespace RelayProfiler

/-- Events observable during a run of an instrumented function:
a handler side effect (`emit`), entry into the aggregate handler at index `i`
(`aggEnter`), entry into the instance handler at index `i` (`instEnter`), and
execution of the original function with the given receiver and arguments
(`orig`). -/
inductive Event (V : Type) where
  | emit (tag : Nat)
  | aggEnter (i : Nat)
  | instEnter (i : Nat)
  | orig (receiver args : V)
  deriving DecidableEq

/-- Actions a handler body may perform: an observable side effect, a call of
the continuation (`invokeHandlers`) it received, or a synchronous re-entrant
invocation of the wrapped function with the given receiver and arguments. -/
inductive Action (V : Type) where
  | emit (tag : Nat)
  | callCont
  | reenter (receiver args : V)
  deriving DecidableEq

/-- A handler body: given the argument value of the current invocation
(visible to a real handler through closed-over state), the finite list of
actions it performs. -/
abbrev Script (V : Type) := V → List (Action V)

/-- The closure environment of one wrapper produced by `instrument`:
the aggregate handlers registered under its name (contents of
`aggregateHandlersByName[name]` at call time), the instance handlers attached
to the wrapper (`handlers`), and the wrapped `originalFunction` (embedded as a
pure function of receiver and arguments).  Per the source's documented
assumption, no handler attaches or detaches handlers mid-call, so the
environment is fixed for the duration of a run. -/
structure Env (V : Type) where
  aggregateHandlers : List (Script V)
  handlers : List (Script V)
  originalFunction : V → V → V

/-- One invocation context, the source's
`[aggregateHandlers.length, handlers.length, this, arguments, NOT_INVOKED]`
tuple: counters of handlers still to be entered, the receiver, the arguments,
and the result slot (`none` is the `NOT_INVOKED` sentinel). -/
structure Context (V : Type) where
  aggRemaining : Nat
  instRemaining : Nat
  receiver : V
  args : V
  result : Option V
  deriving DecidableEq

/-- The per-wrapper `contexts` stack.  The source pushes and pops at the end
of a JavaScript array; here the head of the list is the top of the stack. -/
abbrev Stack (V : Type) := List (Context V)

/-- Abnormal outcomes: fuel exhaustion (an artifact of the fueled
interpreter), reading the top of an empty context stack or a handler index
out of range (both unreachable from `instrumentedCallback`), and the
`RelayProfiler: Handler did not invoke original function` error thrown by the
wrapper. -/
inductive PErr where
  | fuelOut
  | emptyStack
  | badIndex
  | notInvoked
  deriving DecidableEq

/-- Result of a run: the final context stack, the chronological trace of
events performed (also on error: JavaScript exceptions do not undo side
effects), and the outcome. -/
abbrev Res (V : Type) (α : Type) := Stack V × List (Event V) × Except PErr α

mutual

/-- The source's `invokeHandlers` (lines 116–127): read the top context;
if aggregate handlers remain, decrement the counter and enter the aggregate
handler at the decremented index, running its body; else if instance handlers
remain, likewise for the instance handler; else run the original function on
the context's receiver and arguments and store the value in the result
slot. -/
def invokeHandlers {V : Type} (env : Env V) : Nat → Stack V → Res V Unit
  | 0, cs => (cs, [], .error .fuelOut)
  | _ + 1, [] => ([], [], .error .emptyStack)
  | n + 1, c :: rest =>
    match c.aggRemaining, c.instRemaining with
    | k + 1, _ =>
      match env.aggregateHandlers[k]? with
      | none => ({ c with aggRemaining := k } :: rest, [], .error .badIndex)
      | some handler =>
        let out := runScript env n (handler c.args) ({ c with aggRemaining := k } :: rest)
        (out.1, Event.aggEnter k :: out.2.1, out.2.2)
    | 0, j + 1 =>
      match env.handlers[j]? with
      | none => ({ c with instRemaining := j } :: rest, [], .error .badIndex)
      | some handler =>
        let out := runScript env n (handler c.args) ({ c with instRemaining := j } :: rest)
        (out.1, Event.instEnter j :: out.2.1, out.2.2)
    | 0, 0 =>
      ({ c with result := some (env.originalFunction c.receiver c.args) } :: rest,
        [Event.orig c.receiver c.args], .ok ())

/-- Runs the actions of a handler body in order.  `callCont` calls
`invokeHandlers` on the current stack (the continuation every handler
receives); `reenter` performs a full nested invocation of the wrapper.
An error from either aborts the rest of the body and propagates, as a
JavaScript exception would. -/
def runScript {V : Type} (env : Env V) : Nat → List (Action V) → Stack V → Res V Unit
  | 0, _, cs => (cs, [], .error .fuelOut)
  | _ + 1, [], cs => (cs, [], .ok ())
  | n + 1, act :: rest, cs =>
    match act with
    | .emit t =>
      let out := runScript env n rest cs
      (out.1, Event.emit t :: out.2.1, out.2.2)
    | .callCont =>
      match invokeHandlers env n cs with
      | (cs₁, ev₁, .ok _) =>
        let out := runScript env n rest cs₁
        (out.1, ev₁ ++ out.2.1, out.2.2)
      | (cs₁, ev₁, .error e) => (cs₁, ev₁, .error e)
    | .reenter r a =>
      match instrumentedCallback env n r a cs with
      | (cs₁, ev₁, .ok _) =>
        let out := runScript env n rest cs₁
        (out.1, ev₁ ++ out.2.1, out.2.2)
      | (cs₁, ev₁, .error e) => (cs₁, ev₁, .error e)

/-- The source's `instrumentedCallback` (lines 128–150): if no aggregate and
no instance handlers are attached, call the original function directly (fast
path); otherwise push a fresh invocation context with snapshot handler
counts, the receiver, the arguments and the `NOT_INVOKED` sentinel, drive
`invokeHandlers`, pop the context, and either return the result slot or throw
`Handler did not invoke original function` if it still holds the sentinel. -/
def instrumentedCallback {V : Type} (env : Env V) : Nat → V → V → Stack V → Res V V
  | 0, _, _, cs => (cs, [], .error .fuelOut)
  | n + 1, receiver, args, cs =>
    if env.aggregateHandlers.length == 0 && env.handlers.length == 0 then
      (cs, [Event.orig receiver args], .ok (env.originalFunction receiver args))
    else
      match invokeHandlers env n
          (⟨env.aggregateHandlers.length, env.handlers.length, receiver, args, none⟩ :: cs) with
      | (cs₁, ev, .ok _) =>
        match cs₁ with
        | [] => ([], ev, .error .emptyStack)
        | c :: rest =>
          match c.result with
          | none => (rest, ev, .error .notInvoked)
          | some v => (rest, ev, .ok v)
      | (cs₁, ev, .error e) => (cs₁, ev, .error e)

end

/-- A sanity computation: two aggregate handlers that each just call their
continuation; the last-registered handler (index 1) is entered first. -/
example :
    instrumentedCallback
      (V := Nat)
      ⟨[fun _ => [Action.callCont], fun _ => [Action.callCont]], [], fun r a => r + a⟩
      12 1 2 [] =
    ([], [Event.aggEnter 1, Event.aggEnter 0, Event.orig 1 2], Except.ok 3) := rfl

/-! ## Frame and stack preservation

`invokeHandlers` only ever mutates the top context of the stack (decrementing
its counters and filling its result slot with the value of the original
function on that context's receiver and arguments); a full invocation of the
wrapper pushes one fresh context and pops it again.  The relations below
capture exactly that, and `preservation` proves them for all three mutually
recursive functions at once. -/

/-- How one invocation context may evolve during a run: the receiver and the
arguments are never written, and the result slot is either untouched or holds
the value of the original function at this context's receiver and
arguments. -/
def frameRel {V : Type} (f : V → V → V) (c c' : Context V) : Prop :=
  c'.receiver = c.receiver ∧ c'.args = c.args ∧
    (c'.result = c.result ∨ c'.result = some (f c.receiver c.args))

/-- How the whole context stack may evolve during a run of `invokeHandlers`
or of a handler body: every context below the top is untouched, and the top
evolves by `frameRel`. -/
def stackRel {V : Type} (f : V → V → V) : Stack V → Stack V → Prop
  | [], cs' => cs' = []
  | c :: rest, cs' => ∃ c', cs' = c' :: rest ∧ frameRel f c c'

theorem frameRel_refl {V : Type} (f : V → V → V) (c : Context V) : frameRel f c c :=
  ⟨rfl, rfl, Or.inl rfl⟩

theorem stackRel_refl {V : Type} (f : V → V → V) (cs : Stack V) : stackRel f cs cs := by
  cases cs with
  | nil => rfl
  | cons c rest => exact ⟨c, rfl, frameRel_refl f c⟩

theorem frameRel_trans {V : Type} {f : V → V → V} {c₁ c₂ c₃ : Context V}
    (h₁ : frameRel f c₁ c₂) (h₂ : frameRel f c₂ c₃) : frameRel f c₁ c₃ := by
  obtain ⟨hr₁, ha₁, hs₁⟩ := h₁
  obtain ⟨hr₂, ha₂, hs₂⟩ := h₂
  refine ⟨hr₂.trans hr₁, ha₂.trans ha₁, ?_⟩
  rcases hs₂ with hs₂ | hs₂
  · rw [hs₂]; exact hs₁
  · right; rw [hs₂, hr₁, ha₁]

theorem stackRel_trans {V : Type} {f : V → V → V} {cs₁ cs₂ cs₃ : Stack V}
    (h₁ : stackRel f cs₁ cs₂) (h₂ : stackRel f cs₂ cs₃) : stackRel f cs₁ cs₃ := by
  cases cs₁ with
  | nil => cases h₁; exact h₂
  | cons c rest =>
    obtain ⟨c₂, rfl, hf₁⟩ := h₁
    obtain ⟨c₃, rfl, hf₂⟩ := h₂
    exact ⟨c₃, rfl, frameRel_trans hf₁ hf₂⟩

/-- Master invariant, by induction on the fuel: a successful `invokeHandlers`
run or handler-body run touches only the top context and relates it by
`frameRel`; a successful full invocation of the wrapper restores the context
stack exactly and returns the value of the original function on the given
receiver and arguments. -/
theorem preservation {V : Type} (env : Env V) :
    ∀ n : Nat,
      (∀ cs cs' ev u, invokeHandlers env n cs = (cs', ev, .ok u) →
        stackRel env.originalFunction cs cs') ∧
      (∀ acts cs cs' ev u, runScript env n acts cs = (cs', ev, .ok u) →
        stackRel env.originalFunction cs cs') ∧
      (∀ r a cs cs' ev v, instrumentedCallback env n r a cs = (cs', ev, .ok v) →
        cs' = cs ∧ v = env.originalFunction r a) := by
  intro n
  induction n with
  | zero =>
    refine ⟨?_, ?_, ?_⟩
    · intro cs cs' ev u h
      simp only [invokeHandlers, Prod.mk.injEq] at h
      exact absurd h.2.2 (by simp)
    · intro acts cs cs' ev u h
      simp only [runScript, Prod.mk.injEq] at h
      exact absurd h.2.2 (by simp)
    · intro r a cs cs' ev v h
      simp only [instrumentedCallback, Prod.mk.injEq] at h
      exact absurd h.2.2 (by simp)
  | succ n ih =>
    obtain ⟨ihI, ihS, ihC⟩ := ih
    have hInvoke : ∀ cs cs' ev u, invokeHandlers env (n + 1) cs = (cs', ev, .ok u) →
        stackRel env.originalFunction cs cs' := by
      intro cs cs' ev u h
      match cs with
      | [] =>
        simp only [invokeHandlers, Prod.mk.injEq] at h
        exact absurd h.2.2 (by simp)
      | ⟨k₀, m₀, rv, ar, rs⟩ :: rest =>
        match k₀, m₀ with
        | k + 1, m₀ =>
          rcases hh : env.aggregateHandlers[k]? with _ | handler
          · simp only [invokeHandlers, hh, Prod.mk.injEq] at h
            exact absurd h.2.2 (by simp)
          · rcases hrs : runScript env n (handler ar)
                (⟨k, m₀, rv, ar, rs⟩ :: rest) with ⟨cs₂, ev₂, r₂⟩
            simp only [invokeHandlers, hh, hrs, Prod.mk.injEq] at h
            obtain ⟨hcs, _, hr⟩ := h
            subst hcs; subst hr
            have := ihS _ _ _ _ _ hrs
            refine stackRel_trans ?_ this
            exact ⟨_, rfl, rfl, rfl, Or.inl rfl⟩
        | 0, m + 1 =>
          rcases hh : env.handlers[m]? with _ | handler
          · simp only [invokeHandlers, hh, Prod.mk.injEq] at h
            exact absurd h.2.2 (by simp)
          · rcases hrs : runScript env n (handler ar)
                (⟨0, m, rv, ar, rs⟩ :: rest) with ⟨cs₂, ev₂, r₂⟩
            simp only [invokeHandlers, hh, hrs, Prod.mk.injEq] at h
            obtain ⟨hcs, _, hr⟩ := h
            subst hcs; subst hr
            have := ihS _ _ _ _ _ hrs
            refine stackRel_trans ?_ this
            exact ⟨_, rfl, rfl, rfl, Or.inl rfl⟩
        | 0, 0 =>
          simp only [invokeHandlers, Prod.mk.injEq] at h
          obtain ⟨hcs, _, _⟩ := h
          subst hcs
          exact ⟨_, rfl, rfl, rfl, Or.inr rfl⟩
    have hScript : ∀ acts cs cs' ev u, runScript env (n + 1) acts cs = (cs', ev, .ok u) →
        stackRel env.originalFunction cs cs' := by
      intro acts
      induction acts with
      | nil =>
        intro cs cs' ev u h
        simp only [runScript, Prod.mk.injEq] at h
        obtain ⟨hcs, _, _⟩ := h
        subst hcs
        exact stackRel_refl _ _
      | cons act rest ihActs =>
        intro cs cs' ev u h
        match act with
        | .emit t =>
          rcases hrs : runScript env n rest cs with ⟨cs₂, ev₂, r₂⟩
          simp only [runScript, hrs, Prod.mk.injEq] at h
          obtain ⟨hcs, _, hr⟩ := h
          subst hcs; subst hr
          exact ihS _ _ _ _ _ hrs
        | .callCont =>
          rcases hInv : invokeHandlers env n cs with ⟨cs₁, ev₁, r₁⟩
          match r₁ with
          | .error e =>
            simp only [runScript, hInv, Prod.mk.injEq] at h
            exact absurd h.2.2 (by simp)
          | .ok u₁ =>
            rcases hrs : runScript env n rest cs₁ with ⟨cs₂, ev₂, r₂⟩
            simp only [runScript, hInv, hrs, Prod.mk.injEq] at h
            obtain ⟨hcs, _, hr⟩ := h
            subst hcs; subst hr
            exact stackRel_trans (ihI _ _ _ _ hInv) (ihS _ _ _ _ _ hrs)
        | .reenter r a =>
          rcases hInv : instrumentedCallback env n r a cs with ⟨cs₁, ev₁, r₁⟩
          match r₁ with
          | .error e =>
            simp only [runScript, hInv, Prod.mk.injEq] at h
            exact absurd h.2.2 (by simp)
          | .ok v₁ =>
            rcases hrs : runScript env n rest cs₁ with ⟨cs₂, ev₂, r₂⟩
            simp only [runScript, hInv, hrs, Prod.mk.injEq] at h
            obtain ⟨hcs, _, hr⟩ := h
            subst hcs; subst hr
            obtain ⟨hstk, _⟩ := ihC _ _ _ _ _ _ hInv
            subst hstk
            exact ihS _ _ _ _ _ hrs
    refine ⟨hInvoke, hScript, ?_⟩
    intro r a cs cs' ev v h
    cases hfb : (env.aggregateHandlers.length == 0 && env.handlers.length == 0) with
    | true =>
      simp only [instrumentedCallback, hfb, if_true, Prod.mk.injEq] at h
      obtain ⟨hcs, _, hv⟩ := h
      have hv' : v = env.originalFunction r a := by
        cases hv; rfl
      exact ⟨hcs.symm, hv'⟩
    | false =>
      rcases hInv : invokeHandlers env n
          (⟨env.aggregateHandlers.length, env.handlers.length, r, a, none⟩ :: cs) with
        ⟨cs₁, ev₁, r₁⟩
      match r₁ with
      | .error e =>
        simp only [instrumentedCallback, hfb, Bool.false_eq_true, if_false, hInv,
          Prod.mk.injEq] at h
        exact absurd h.2.2 (by simp)
      | .ok u₁ =>
        have hrel := ihI _ _ _ _ hInv
        obtain ⟨c₁, hcs₁, hrv, har, hres⟩ := hrel
        subst hcs₁
        rcases hc : c₁.result with _ | w
        · simp only [instrumentedCallback, hfb, Bool.false_eq_true, if_false, hInv, hc,
            Prod.mk.injEq] at h
          exact absurd h.2.2 (by simp)
        · simp only [instrumentedCallback, hfb, Bool.false_eq_true, if_false, hInv, hc,
            Prod.mk.injEq] at h
          obtain ⟨hcs, _, hv⟩ := h
          have hv' : w = v := by cases hv; rfl
          subst hv'
          refine ⟨hcs.symm, ?_⟩
          rcases hres with hres | hres
          · rw [hc] at hres; cases hres
          · rw [hc] at hres
            simp only at hres
            cases hres
            rfl

/-! ## Handler execution order

The observable order in which handlers and the original function execute is
the trace with the handlers' own `emit` side effects filtered out. -/

/-- Whether an event is a handler side effect (as opposed to entry into a
handler or execution of the original function). -/
def Event.isEmit {V : Type} : Event V → Bool
  | .emit _ => true
  | _ => false

/-- Whether an event is an execution of the original function. -/
def Event.isOrig {V : Type} : Event V → Bool
  | .orig _ _ => true
  | _ => false

/-- The subsequence of a trace recording handler entries and executions of
the original function, in chronological order. -/
def executionOrder {V : Type} (ev : List (Event V)) : List (Event V) :=
  ev.filter (fun e => !e.isEmit)

/-- The execution order the engine produces for a context with `k` aggregate
handlers and `m` instance handlers left: aggregate handlers from index `k-1`
down to `0`, then instance handlers from index `m-1` down to `0`, then the
original function once. -/
def chainOrder {V : Type} (k m : Nat) (r a : V) : List (Event V) :=
  ((List.range k).reverse.map Event.aggEnter) ++
    ((List.range m).reverse.map Event.instEnter) ++ [Event.orig r a]

/-- Whether an action is a side effect. -/
def Action.isEmit {V : Type} : Action V → Bool
  | .emit _ => true
  | _ => false

/-- Whether an action is a re-entrant invocation of the wrapper. -/
def Action.isReenter {V : Type} : Action V → Bool
  | .reenter _ _ => true
  | _ => false

/-- A handler body consisting of side effects only (it never calls its
continuation and never re-enters the wrapper). -/
def emitsOnly {V : Type} (acts : List (Action V)) : Prop :=
  ∀ act ∈ acts, act.isEmit = true

/-- A handler body that calls its continuation exactly once and otherwise
performs only side effects — the hypothesis of the ordering claim. -/
def callsContOnce {V : Type} (acts : List (Action V)) : Prop :=
  ∃ pre post, acts = pre ++ Action.callCont :: post ∧ emitsOnly pre ∧ emitsOnly post

/-- A handler body that performs no re-entrant invocation of the wrapper
(it may emit and may or may not call its continuation). -/
def noReenter {V : Type} (acts : List (Action V)) : Prop :=
  ∀ act ∈ acts, act.isReenter = false

theorem chainOrder_agg_succ {V : Type} (k m : Nat) (r a : V) :
    chainOrder (k + 1) m r a = Event.aggEnter k :: chainOrder k m r a := by
  simp [chainOrder, List.range_succ]

theorem chainOrder_inst_succ {V : Type} (m : Nat) (r a : V) :
    chainOrder 0 (m + 1) r a = Event.instEnter m :: chainOrder 0 m r a := by
  simp [chainOrder, List.range_succ]

/-- A body of side effects only leaves the context stack untouched and
contributes nothing to the execution order. -/
theorem runScript_emitsOnly {V : Type} (env : Env V) :
    ∀ (acts : List (Action V)), emitsOnly acts →
      ∀ n cs cs' ev u, runScript env n acts cs = (cs', ev, .ok u) →
        cs' = cs ∧ executionOrder ev = [] := by
  intro acts
  induction acts with
  | nil =>
    intro _ n cs cs' ev u h
    match n with
    | 0 =>
      simp only [runScript, Prod.mk.injEq] at h
      exact absurd h.2.2 (by simp)
    | n + 1 =>
      simp only [runScript, Prod.mk.injEq] at h
      obtain ⟨hcs, hev, _⟩ := h
      subst hcs; subst hev
      exact ⟨rfl, rfl⟩
  | cons act rest ihActs =>
    intro hemits n cs cs' ev u h
    have hact : act.isEmit = true := hemits act (List.mem_cons_self act rest)
    have hrest : emitsOnly rest := fun x hx => hemits x (List.mem_cons_of_mem act hx)
    match n with
    | 0 =>
      simp only [runScript, Prod.mk.injEq] at h
      exact absurd h.2.2 (by simp)
    | n + 1 =>
      match act with
      | .callCont => simp [Action.isEmit] at hact
      | .reenter r a => simp [Action.isEmit] at hact
      | .emit t =>
        rcases hrs : runScript env n rest cs with ⟨cs₂, ev₂, r₂⟩
        simp only [runScript, hrs, Prod.mk.injEq] at h
        obtain ⟨hcs, hev, hr⟩ := h
        subst hcs; subst hev; subst hr
        obtain ⟨hcs₂, hord⟩ := ihActs hrest n cs cs₂ ev₂ u hrs
        refine ⟨hcs₂, ?_⟩
        simpa [executionOrder, Event.isEmit] using hord

/-- Execution order of a chain all of whose handlers call their continuation
exactly once (and otherwise only emit): the aggregate handlers still pending
are entered from the highest index down, then the pending instance handlers
from the highest index down, then the original function runs once.  By
induction on the fuel, for `invokeHandlers` and for handler bodies
simultaneously. -/
theorem chain_execution_order {V : Type} (env : Env V) (a : V)
    (hAgg : ∀ h ∈ env.aggregateHandlers, callsContOnce (h a))
    (hInst : ∀ h ∈ env.handlers, callsContOnce (h a)) :
    ∀ n : Nat,
      (∀ k m r res rest cs' ev u,
        invokeHandlers env n (⟨k, m, r, a, res⟩ :: rest) = (cs', ev, .ok u) →
        executionOrder ev = chainOrder k m r a) ∧
      (∀ acts, callsContOnce acts →
        ∀ k m r res rest cs' ev u,
          runScript env n acts (⟨k, m, r, a, res⟩ :: rest) = (cs', ev, .ok u) →
          executionOrder ev = chainOrder k m r a) := by
  intro n
  induction n with
  | zero =>
    constructor
    · intro k m r res rest cs' ev u h
      simp only [invokeHandlers, Prod.mk.injEq] at h
      exact absurd h.2.2 (by simp)
    · intro acts _ k m r res rest cs' ev u h
      simp only [runScript, Prod.mk.injEq] at h
      exact absurd h.2.2 (by simp)
  | succ n ih =>
    obtain ⟨ihI, ihS⟩ := ih
    constructor
    · intro k m r res rest cs' ev u h
      match k, m with
      | k + 1, m =>
        rcases hh : env.aggregateHandlers[k]? with _ | handler
        · simp only [invokeHandlers, hh, Prod.mk.injEq] at h
          exact absurd h.2.2 (by simp)
        · rcases hrs : runScript env n (handler a) (⟨k, m, r, a, res⟩ :: rest) with
            ⟨cs₂, ev₂, r₂⟩
          simp only [invokeHandlers, hh, hrs, Prod.mk.injEq] at h
          obtain ⟨_, hev, hr⟩ := h
          subst hev; subst hr
          have honce := hAgg handler (List.getElem?_mem hh)
          have := ihS (handler a) honce k m r res rest cs₂ ev₂ u hrs
          rw [chainOrder_agg_succ]
          simpa [executionOrder, Event.isEmit] using this
      | 0, m + 1 =>
        rcases hh : env.handlers[m]? with _ | handler
        · simp only [invokeHandlers, hh, Prod.mk.injEq] at h
          exact absurd h.2.2 (by simp)
        · rcases hrs : runScript env n (handler a) (⟨0, m, r, a, res⟩ :: rest) with
            ⟨cs₂, ev₂, r₂⟩
          simp only [invokeHandlers, hh, hrs, Prod.mk.injEq] at h
          obtain ⟨_, hev, hr⟩ := h
          subst hev; subst hr
          have honce := hInst handler (List.getElem?_mem hh)
          have := ihS (handler a) honce 0 m r res rest cs₂ ev₂ u hrs
          rw [chainOrder_inst_succ]
          simpa [executionOrder, Event.isEmit] using this
      | 0, 0 =>
        simp only [invokeHandlers, Prod.mk.injEq] at h
        obtain ⟨_, hev, _⟩ := h
        subst hev
        simp [executionOrder, chainOrder, Event.isEmit]
    · intro acts hacts k m r res rest cs' ev u h
      obtain ⟨pre, post, hform, hpre, hpost⟩ := hacts
      subst hform
      match pre, hpre with
      | [], _ =>
        rcases hInv : invokeHandlers env n (⟨k, m, r, a, res⟩ :: rest) with ⟨cs₁, ev₁, r₁⟩
        match r₁ with
        | .error e =>
          simp only [List.nil_append, runScript, hInv, Prod.mk.injEq] at h
          exact absurd h.2.2 (by simp)
        | .ok u₁ =>
          rcases hrs : runScript env n post cs₁ with ⟨cs₂, ev₂, r₂⟩
          simp only [List.nil_append, runScript, hInv, hrs, Prod.mk.injEq] at h
          obtain ⟨_, hev, hr⟩ := h
          subst hev; subst hr
          have h₁ := ihI k m r res rest cs₁ ev₁ u₁ hInv
          obtain ⟨_, hord₂⟩ := runScript_emitsOnly env post hpost n cs₁ cs₂ ev₂ u hrs
          simp only [executionOrder, List.filter_append] at h₁ hord₂ ⊢
          rw [h₁, hord₂, List.append_nil]
      | act₀ :: pre', hpre =>
        have hact : act₀.isEmit = true := hpre act₀ (List.mem_cons_self act₀ pre')
        have hpre' : emitsOnly pre' := fun x hx => hpre x (List.mem_cons_of_mem act₀ hx)
        match act₀ with
        | .callCont => simp [Action.isEmit] at hact
        | .reenter r' a' => simp [Action.isEmit] at hact
        | .emit t =>
          rcases hrs : runScript env n (pre' ++ Action.callCont :: post)
              (⟨k, m, r, a, res⟩ :: rest) with ⟨cs₂, ev₂, r₂⟩
          simp only [List.cons_append, runScript, List.append_eq, hrs, Prod.mk.injEq] at h
          obtain ⟨_, hev, hr⟩ := h
          subst hev; subst hr
          have := ihS (pre' ++ Action.callCont :: post) ⟨pre', post, rfl, hpre', hpost⟩
            k m r res rest cs₂ ev₂ u hrs
          simpa [executionOrder, Event.isEmit] using this

/-- For handler bodies that never re-enter the wrapper: a successful
`invokeHandlers` run (or handler-body run) starting from a context for
receiver `r` and arguments `a` ends in a context for the same receiver and
arguments, and if the result slot is still empty at the end then it was empty
at the start and the original function was never executed during the run.
By induction on the fuel. -/
theorem no_orig_when_slot_empty {V : Type} (env : Env V) (a : V)
    (hAgg : ∀ h ∈ env.aggregateHandlers, noReenter (h a))
    (hInst : ∀ h ∈ env.handlers, noReenter (h a)) :
    ∀ n : Nat,
      (∀ k m r res rest cs' ev u,
        invokeHandlers env n (⟨k, m, r, a, res⟩ :: rest) = (cs', ev, .ok u) →
        ∃ k' m' res', cs' = ⟨k', m', r, a, res'⟩ :: rest ∧
          (res' = none → res = none ∧ ∀ e ∈ ev, e.isOrig = false)) ∧
      (∀ acts, noReenter acts →
        ∀ k m r res rest cs' ev u,
          runScript env n acts (⟨k, m, r, a, res⟩ :: rest) = (cs', ev, .ok u) →
          ∃ k' m' res', cs' = ⟨k', m', r, a, res'⟩ :: rest ∧
            (res' = none → res = none ∧ ∀ e ∈ ev, e.isOrig = false)) := by
  intro n
  induction n with
  | zero =>
    constructor
    · intro k m r res rest cs' ev u h
      simp only [invokeHandlers, Prod.mk.injEq] at h
      exact absurd h.2.2 (by simp)
    · intro acts _ k m r res rest cs' ev u h
      simp only [runScript, Prod.mk.injEq] at h
      exact absurd h.2.2 (by simp)
  | succ n ih =>
    obtain ⟨ihI, ihS⟩ := ih
    constructor
    · intro k m r res rest cs' ev u h
      match k, m with
      | k + 1, m =>
        rcases hh : env.aggregateHandlers[k]? with _ | handler
        · simp only [invokeHandlers, hh, Prod.mk.injEq] at h
          exact absurd h.2.2 (by simp)
        · rcases hrs : runScript env n (handler a) (⟨k, m, r, a, res⟩ :: rest) with
            ⟨cs₂, ev₂, r₂⟩
          simp only [invokeHandlers, hh, hrs, Prod.mk.injEq] at h
          obtain ⟨hcs, hev, hr⟩ := h
          subst hcs; subst hev; subst hr
          obtain ⟨k', m', res', hcs₂, himp⟩ :=
            ihS (handler a) (hAgg handler (List.getElem?_mem hh)) k m r res rest cs₂ ev₂ u hrs
          refine ⟨k', m', res', hcs₂, fun hn => ?_⟩
          obtain ⟨hres, hnev⟩ := himp hn
          refine ⟨hres, fun e he => ?_⟩
          rcases List.mem_cons.mp he with rfl | he
          · rfl
          · exact hnev e he
      | 0, m + 1 =>
        rcases hh : env.handlers[m]? with _ | handler
        · simp only [invokeHandlers, hh, Prod.mk.injEq] at h
          exact absurd h.2.2 (by simp)
        · rcases hrs : runScript env n (handler a) (⟨0, m, r, a, res⟩ :: rest) with
            ⟨cs₂, ev₂, r₂⟩
          simp only [invokeHandlers, hh, hrs, Prod.mk.injEq] at h
          obtain ⟨hcs, hev, hr⟩ := h
          subst hcs; subst hev; subst hr
          obtain ⟨k', m', res', hcs₂, himp⟩ :=
            ihS (handler a) (hInst handler (List.getElem?_mem hh)) 0 m r res rest cs₂ ev₂ u hrs
          refine ⟨k', m', res', hcs₂, fun hn => ?_⟩
          obtain ⟨hres, hnev⟩ := himp hn
          refine ⟨hres, fun e he => ?_⟩
          rcases List.mem_cons.mp he with rfl | he
          · rfl
          · exact hnev e he
      | 0, 0 =>
        simp only [invokeHandlers, Prod.mk.injEq] at h
        obtain ⟨hcs, hev, _⟩ := h
        subst hcs; subst hev
        exact ⟨0, 0, some (env.originalFunction r a), rfl, fun hn => by cases hn⟩
    · intro acts hacts k m r res rest cs' ev u h
      match acts with
      | [] =>
        simp only [runScript, Prod.mk.injEq] at h
        obtain ⟨hcs, hev, _⟩ := h
        subst hcs; subst hev
        exact ⟨k, m, res, rfl, fun hn => ⟨hn, fun e he => absurd he (List.not_mem_nil e)⟩⟩
      | act :: restActs =>
        have hrestActs : noReenter restActs := fun x hx => hacts x (List.mem_cons_of_mem act hx)
        match act with
        | .reenter r' a' =>
          have := hacts (Action.reenter r' a') (List.mem_cons_self _ restActs)
          simp [Action.isReenter] at this
        | .emit t =>
          rcases hrs : runScript env n restActs (⟨k, m, r, a, res⟩ :: rest) with ⟨cs₂, ev₂, r₂⟩
          simp only [runScript, hrs, Prod.mk.injEq] at h
          obtain ⟨hcs, hev, hr⟩ := h
          subst hcs; subst hev; subst hr
          obtain ⟨k', m', res', hcs₂, himp⟩ :=
            ihS restActs hrestActs k m r res rest cs₂ ev₂ u hrs
          refine ⟨k', m', res', hcs₂, fun hn => ?_⟩
          obtain ⟨hres, hnev⟩ := himp hn
          refine ⟨hres, fun e he => ?_⟩
          rcases List.mem_cons.mp he with rfl | he
          · rfl
          · exact hnev e he
        | .callCont =>
          rcases hInv : invokeHandlers env n (⟨k, m, r, a, res⟩ :: rest) with ⟨cs₁, ev₁, r₁⟩
          match r₁ with
          | .error e =>
            simp only [runScript, hInv, Prod.mk.injEq] at h
            exact absurd h.2.2 (by simp)
          | .ok u₁ =>
            obtain ⟨k₁, m₁, res₁, hcs₁, himp₁⟩ := ihI k m r res rest cs₁ ev₁ u₁ hInv
            subst hcs₁
            rcases hrs : runScript env n restActs (⟨k₁, m₁, r, a, res₁⟩ :: rest) with
              ⟨cs₂, ev₂, r₂⟩
            simp only [runScript, hInv, hrs, Prod.mk.injEq] at h
            obtain ⟨hcs, hev, hr⟩ := h
            subst hcs; subst hev; subst hr
            obtain ⟨k₂, m₂, res₂, hcs₂, himp₂⟩ :=
              ihS restActs hrestActs k₁ m₁ r res₁ rest cs₂ ev₂ u hrs
            refine ⟨k₂, m₂, res₂, hcs₂, fun hn => ?_⟩
            obtain ⟨hres₁, hnev₂⟩ := himp₂ hn
            obtain ⟨hres, hnev₁⟩ := himp₁ hres₁
            refine ⟨hres, fun e he => ?_⟩
            rcases List.mem_append.mp he with he | he
            · exact hnev₁ e he
            · exact hnev₂ e he

/-! ## Claim theorems for the instrument engine -/

theorem callsContOnce_pure {V : Type} : callsContOnce ([Action.callCont] : List (Action V)) := by
  refine ⟨[], [], rfl, ?_, ?_⟩ <;>
    exact fun act h => absurd h (List.not_mem_nil act)

theorem callsContOnce_preEmit {V : Type} (t : Nat) :
    callsContOnce ([Action.emit t, Action.callCont] : List (Action V)) := by
  refine ⟨[Action.emit t], [], rfl, ?_, ?_⟩
  · intro act h
    rcases List.mem_singleton.mp h with rfl
    rfl
  · exact fun act h => absurd h (List.not_mem_nil act)

theorem callsContOnce_postEmit {V : Type} (t : Nat) :
    callsContOnce ([Action.callCont, Action.emit t] : List (Action V)) := by
  refine ⟨[], [Action.emit t], rfl, ?_, ?_⟩
  · exact fun act h => absurd h (List.not_mem_nil act)
  · intro act h
    rcases List.mem_singleton.mp h with rfl
    rfl

/-- C1, counterexample to the claimed order: a wrapper with two aggregate
handlers, each of which calls its continuation exactly once, executes the
handler at index 1 (the one registered second) first, not the handler at
index 0 as the claim states. -/
theorem execution_order_counterexample :
    callsContOnce ([Action.callCont] : List (Action Nat)) ∧
    executionOrder (instrumentedCallback
        (⟨[fun _ => [Action.callCont], fun _ => [Action.callCont]], [],
          fun r a => r + a⟩ : Env Nat) 12 1 2 []).2.1 =
      [Event.aggEnter 1, Event.aggEnter 0, Event.orig 1 2] ∧
    executionOrder (instrumentedCallback
        (⟨[fun _ => [Action.callCont], fun _ => [Action.callCont]], [],
          fun r a => r + a⟩ : Env Nat) 12 1 2 []).2.1 ≠
      [Event.aggEnter 0, Event.aggEnter 1, Event.orig 1 2] := by
  refine ⟨callsContOnce_pure, by decide, by decide⟩

/-- C1 (amended): when every aggregate and instance handler calls its
continuation exactly once (performing only side effects otherwise), a
successful invocation of the wrapper executes the aggregate handlers from
the highest index (most recently registered) down to index 0, then the
instance handlers from the highest index down to index 0, and then the
original function exactly once. -/
theorem handlers_execute_last_attached_outermost {V : Type} (env : Env V)
    (n : Nat) (r a : V) (cs cs' : Stack V) (ev : List (Event V)) (v : V)
    (hAgg : ∀ h ∈ env.aggregateHandlers, callsContOnce (h a))
    (hInst : ∀ h ∈ env.handlers, callsContOnce (h a))
    (h : instrumentedCallback env n r a cs = (cs', ev, .ok v)) :
    executionOrder ev =
      chainOrder env.aggregateHandlers.length env.handlers.length r a := by
  match n with
  | 0 =>
    simp only [instrumentedCallback, Prod.mk.injEq] at h
    exact absurd h.2.2 (by simp)
  | n + 1 =>
    cases hfb : (env.aggregateHandlers.length == 0 && env.handlers.length == 0) with
    | true =>
      have hA0 : env.aggregateHandlers.length = 0 := by
        have := hfb
        simp only [Bool.and_eq_true, beq_iff_eq] at this
        exact this.1
      have hH0 : env.handlers.length = 0 := by
        have := hfb
        simp only [Bool.and_eq_true, beq_iff_eq] at this
        exact this.2
      simp only [instrumentedCallback, hfb, if_true, Prod.mk.injEq] at h
      obtain ⟨_, hev, _⟩ := h
      subst hev
      rw [hA0, hH0]
      simp [executionOrder, chainOrder, Event.isEmit]
    | false =>
      rcases hInv : invokeHandlers env n
          (⟨env.aggregateHandlers.length, env.handlers.length, r, a, none⟩ :: cs) with
        ⟨cs₁, ev₁, r₁⟩
      match r₁ with
      | .error e =>
        simp only [instrumentedCallback, hfb, Bool.false_eq_true, if_false, hInv,
          Prod.mk.injEq] at h
        exact absurd h.2.2 (by simp)
      | .ok u₁ =>
        have hord := (chain_execution_order env a hAgg hInst n).1
          env.aggregateHandlers.length env.handlers.length r none cs cs₁ ev₁ u₁ hInv
        match cs₁ with
        | [] =>
          simp only [instrumentedCallback, hfb, Bool.false_eq_true, if_false, hInv,
            Prod.mk.injEq] at h
          exact absurd h.2.2 (by simp)
        | c₁ :: rest₁ =>
          rcases hc : c₁.result with _ | w
          · simp only [instrumentedCallback, hfb, Bool.false_eq_true, if_false, hInv, hc,
              Prod.mk.injEq] at h
            exact absurd h.2.2 (by simp)
          · simp only [instrumentedCallback, hfb, Bool.false_eq_true, if_false, hInv, hc,
              Prod.mk.injEq] at h
            obtain ⟨_, hev, _⟩ := h
            subst hev
            exact hord

/-- Witness for the amended C1 at a concrete input: two aggregate handlers
(one emitting before its continuation call, one after) and one instance
handler. -/
theorem handlers_execute_last_attached_outermost_witness :
    executionOrder
        ([Event.aggEnter 1, Event.aggEnter 0, Event.emit 10, Event.instEnter 0,
          Event.orig 3 4, Event.emit 11] : List (Event Nat)) =
      chainOrder 2 1 3 4 :=
  handlers_execute_last_attached_outermost
    (⟨[fun _ => [Action.emit 10, Action.callCont],
       fun _ => [Action.callCont, Action.emit 11]],
      [fun _ => [Action.callCont]], fun r a => 10 * r + a⟩ : Env Nat)
    30 3 4 [] []
    [Event.aggEnter 1, Event.aggEnter 0, Event.emit 10, Event.instEnter 0,
      Event.orig 3 4, Event.emit 11] 34
    (by
      intro h hm
      rcases List.mem_cons.mp hm with rfl | hm
      · exact callsContOnce_preEmit 10
      · rcases List.mem_singleton.mp hm with rfl
        exact callsContOnce_postEmit 11)
    (by
      intro h hm
      rcases List.mem_singleton.mp hm with rfl
      exact callsContOnce_pure)
    rfl

/-- C2: if the wrapper has at least one handler, every handler body avoids
re-entering the wrapper, and the handler chain unwinds successfully with the
result slot still holding the `NOT_INVOKED` sentinel, then the wrapper call
reports the `Handler did not invoke original function` error to its caller
and the original function was never executed during the chain. -/
theorem handler_chain_not_invoked_raises {V : Type} (env : Env V) (n : Nat)
    (r a : V) (cs cs₁ : Stack V) (c' : Context V) (ev : List (Event V)) (u : Unit)
    (hAgg : ∀ h ∈ env.aggregateHandlers, noReenter (h a))
    (hInst : ∀ h ∈ env.handlers, noReenter (h a))
    (hsome : (env.aggregateHandlers.length == 0 && env.handlers.length == 0) = false)
    (hrun : invokeHandlers env n
      (⟨env.aggregateHandlers.length, env.handlers.length, r, a, none⟩ :: cs) =
      (c' :: cs₁, ev, .ok u))
    (hslot : c'.result = none) :
    instrumentedCallback env (n + 1) r a cs = (cs₁, ev, .error .notInvoked) ∧
      ∀ e ∈ ev, e.isOrig = false := by
  constructor
  · simp only [instrumentedCallback, hsome, Bool.false_eq_true, if_false, hrun, hslot]
  · obtain ⟨k', m', res', hcs, himp⟩ := (no_orig_when_slot_empty env a hAgg hInst n).1
      env.aggregateHandlers.length env.handlers.length r none cs (c' :: cs₁) ev u hrun
    have hc' : c' = ⟨k', m', r, a, res'⟩ := (List.cons.injEq _ _ _ _ ▸ hcs).1
    have hres' : res' = none := by rw [hc'] at hslot; exact hslot
    exact (himp hres').2

/-- Witness for C2: a single instance handler that only emits and never calls
its continuation. -/
theorem handler_chain_not_invoked_raises_witness :
    instrumentedCallback
        (⟨[], [fun _ => [Action.emit 0]], fun r a => 10 * r + a⟩ : Env Nat) 7 3 4 [] =
      ([], [Event.instEnter 0, Event.emit 0], .error .notInvoked) ∧
    ∀ e ∈ ([Event.instEnter 0, Event.emit 0] : List (Event Nat)), e.isOrig = false :=
  handler_chain_not_invoked_raises
    (⟨[], [fun _ => [Action.emit 0]], fun r a => 10 * r + a⟩ : Env Nat)
    6 3 4 [] [] ⟨0, 0, 3, 4, none⟩ [Event.instEnter 0, Event.emit 0] ()
    (by intro h hm; exact absurd hm (List.not_mem_nil h))
    (by
      intro h hm
      rcases List.mem_singleton.mp hm with rfl
      intro act ham
      rcases List.mem_singleton.mp ham with rfl
      rfl)
    rfl rfl rfl

/-- C3: when both the aggregate-handler list and the wrapper's private
instance-handler list are empty at the moment of invocation, the wrapper
takes the fast path: it calls the original function exactly once with the
given receiver and arguments, returns its value, and pushes no invocation
context (the context stack is untouched). -/
theorem fast_path_no_handlers {V : Type} (env : Env V) (n : Nat) (r a : V)
    (cs : Stack V)
    (hA : env.aggregateHandlers = []) (hH : env.handlers = []) :
    instrumentedCallback env (n + 1) r a cs =
      (cs, [Event.orig r a], .ok (env.originalFunction r a)) := by
  simp [instrumentedCallback, hA, hH]

/-- Witness for C3 at a concrete input. -/
theorem fast_path_no_handlers_witness :
    instrumentedCallback (⟨[], [], fun r a => 10 * r + a⟩ : Env Nat) 1 3 4
        [⟨0, 0, 7, 7, none⟩] =
      ([⟨0, 0, 7, 7, none⟩], [Event.orig 3 4], .ok 34) :=
  fast_path_no_handlers (⟨[], [], fun r a => 10 * r + a⟩ : Env Nat) 0 3 4
    [⟨0, 0, 7, 7, none⟩] rfl rfl

/-- C9: a successful (possibly re-entrant) invocation of the wrapper — made
with any outer in-flight invocation contexts already on the stack — restores
the context stack exactly: every outer context's receiver, arguments,
remaining-handler counts and result slot are unchanged, and therefore the
rest of the outer call (which is a function of the context stack alone)
proceeds exactly as it would have without the nested call. -/
theorem nested_invocation_preserves_outer_contexts {V : Type} (env : Env V)
    (n : Nat) (r a : V) (cs cs' : Stack V) (ev : List (Event V)) (v : V)
    (h : instrumentedCallback env n r a cs = (cs', ev, .ok v)) :
    cs' = cs ∧ ∀ g : Nat, invokeHandlers env g cs' = invokeHandlers env g cs := by
  have hpres := ((preservation env n).2.2 r a cs cs' ev v h).1
  exact ⟨hpres, fun g => by rw [hpres]⟩

/-- Witness for C9: an instance handler that re-enters the wrapped function
(with a guard on the argument) before calling its continuation, invoked while
an outer in-flight context is on the stack. -/
theorem nested_invocation_preserves_outer_contexts_witness :
    ([⟨0, 0, 7, 7, none⟩] : Stack Nat) = [⟨0, 0, 7, 7, none⟩] ∧
    ∀ g : Nat,
      invokeHandlers
          (⟨[], [fun a => if a = 0 then [Action.callCont]
                  else [Action.reenter 9 0, Action.callCont]],
            fun r a => 10 * r + a⟩ : Env Nat) g [⟨0, 0, 7, 7, none⟩] =
        invokeHandlers
          (⟨[], [fun a => if a = 0 then [Action.callCont]
                  else [Action.reenter 9 0, Action.callCont]],
            fun r a => 10 * r + a⟩ : Env Nat) g [⟨0, 0, 7, 7, none⟩] :=
  nested_invocation_preserves_outer_contexts
    (⟨[], [fun a => if a = 0 then [Action.callCont]
            else [Action.reenter 9 0, Action.callCont]],
      fun r a => 10 * r + a⟩ : Env Nat)
    20 5 1 [⟨0, 0, 7, 7, none⟩] [⟨0, 0, 7, 7, none⟩]
    [Event.instEnter 0, Event.instEnter 0, Event.orig 9 0, Event.orig 5 1] 51 rfl

/-- C10: whenever an invocation of the wrapper completes successfully — no
matter how many aggregate or instance handlers ran around it, and no matter
what they did — the value returned to the caller is exactly the value of the
original function applied to the invocation's receiver and arguments. -/
theorem wrapper_returns_original_value {V : Type} (env : Env V)
    (n : Nat) (r a : V) (cs cs' : Stack V) (ev : List (Event V)) (v : V)
    (h : instrumentedCallback env n r a cs = (cs', ev, .ok v)) :
    v = env.originalFunction r a :=
  ((preservation env n).2.2 r a cs cs' ev v h).2

/-- Witness for C10 at a concrete input with one instance handler. -/
theorem wrapper_returns_original_value_witness :
    (34 : Nat) =
      (⟨[], [fun _ => [Action.callCont]], fun r a => 10 * r + a⟩ : Env Nat).originalFunction 3 4 :=
  wrapper_returns_original_value
    (⟨[], [fun _ => [Action.callCont]], fun r a => 10 * r + a⟩ : Env Nat)
    6 3 4 [] [] [Event.instEnter 0, Event.orig 3 4] 34 rfl

/-! ## Registry and profile engine

The module-level state: the two name-indexed handler registries
(`aggregateHandlersByName`, `profileHandlersByName`, modelled as association
lists keyed by name) and the `enableProfile` flag.  Handlers stored in the
registries are identified by opaque ids; a profile handler's observable
behavior — being started with `(name, state)` and its returned stop callback
being invoked — is recorded as `ProfEvent`s. -/

/-- An opaque identity for a handler stored in a registry (JavaScript
compares handlers by object identity in `removeFromArray`). -/
abbrev HandlerId := Nat

/-- The module-level mutable state of `RelayProfiler`: the two registries
(lines 23–24) and the `enableProfile` flag (line 28). -/
structure RelayState where
  aggregateHandlersByName : List (String × List HandlerId)
  profileHandlersByName : List (String × List HandlerId)
  enableProfile : Bool
  deriving DecidableEq

/-- Association-list lookup: the JavaScript `map[name]` read (with
`hasOwnProperty` corresponding to `isSome` of the result). -/
def lookupName (m : List (String × List HandlerId)) (name : String) :
    Option (List HandlerId) :=
  match m with
  | [] => none
  | e :: rest => if e.1 = name then some e.2 else lookupName rest name

/-- `hasOwnProperty`: whether the registry has a key for `name`. -/
def hasKey (m : List (String × List HandlerId)) (name : String) : Bool :=
  (lookupName m name).isSome

/-- The `if (!map.hasOwnProperty(name)) { map[name] = []; }` idiom (lines
110–112, 183–185, 242–244): create an empty entry for `name` unless one
exists. -/
def ensureKey (m : List (String × List HandlerId)) (name : String) :
    List (String × List HandlerId) :=
  if hasKey m name then m else m ++ [(name, [])]

/-- In-place update of the handler list stored under `name` (the JavaScript
`map[name].push(...)` / `removeFromArray(map[name], ...)` mutations). -/
def updateName (m : List (String × List HandlerId)) (name : String)
    (f : List HandlerId → List HandlerId) : List (String × List HandlerId) :=
  m.map (fun e => if e.1 = name then (e.1, f e.2) else e)

/-- Modelled from the spec: the external `removeFromArray` utility (required
on line 18, module not part of this repository) removes the first
identity-equal occurrence of the handler and is a no-op when absent. -/
def removeFromArray (l : List HandlerId) (handler : HandlerId) : List HandlerId :=
  match l with
  | [] => []
  | x :: rest => if x = handler then rest else x :: removeFromArray rest handler

/-- `setEnableProfile` (lines 68–70). -/
def setEnableProfile (s : RelayState) (isEnabled : Bool) : RelayState :=
  { s with enableProfile := isEnabled }

/-- The registry effect of `instrument(name, fn)` in a development build
(lines 109–113): ensure `aggregateHandlersByName` has an entry for `name`
(so the wrapper's closure can capture the array).  The wrapper's invocation
behavior is the interpreter above. -/
def instrumentRegistry (s : RelayState) (name : String) : RelayState :=
  { s with aggregateHandlersByName := ensureKey s.aggregateHandlersByName name }

/-- `attachAggregateHandler` (lines 181–188, development build): ensure the
key exists, then append the handler. -/
def attachAggregateHandler (s : RelayState) (name : String)
    (handler : HandlerId) : RelayState :=
  { s with aggregateHandlersByName :=
      updateName (ensureKey s.aggregateHandlersByName name) name (fun l => l ++ [handler]) }

/-- `detachAggregateHandler` (lines 193–199, development build): remove the
first occurrence from the entry if the key exists, else do nothing. -/
def detachAggregateHandler (s : RelayState) (name : String)
    (handler : HandlerId) : RelayState :=
  if hasKey s.aggregateHandlersByName name then
    { s with aggregateHandlersByName :=
        updateName s.aggregateHandlersByName name (fun l => removeFromArray l handler) }
  else s

/-- `attachProfileHandler` (lines 240–247): gated by `enableProfile`; ensure
the key exists, then append the handler. -/
def attachProfileHandler (s : RelayState) (name : String)
    (handler : HandlerId) : RelayState :=
  if s.enableProfile then
    { s with profileHandlersByName :=
        updateName (ensureKey s.profileHandlersByName name) name (fun l => l ++ [handler]) }
  else s

/-- `detachProfileHandler` (lines 252–258): gated by `enableProfile`; remove
the first occurrence from the entry if the key exists, else do nothing. -/
def detachProfileHandler (s : RelayState) (name : String)
    (handler : HandlerId) : RelayState :=
  if s.enableProfile then
    if hasKey s.profileHandlersByName name then
      { s with profileHandlersByName :=
          updateName s.profileHandlersByName name (fun l => removeFromArray l handler) }
    else s
  else s

/-- Observable behavior of profile handlers: handler `h` was started with
`(name, state)`, or the stop callback handler `h` returned was invoked. -/
inductive ProfEvent (S : Type) where
  | start (handler : HandlerId) (name : String) (state : S)
  | stop (handler : HandlerId)
  deriving DecidableEq

/-- The session object returned by `profile`: either the shared no-op
`defaultProfiler` (line 27), or a fresh object closing over the collected
`stopHandlers` (which the source leaves `undefined` — here `none` — when the
start loop never ran). -/
inductive Session where
  | defaultProfiler
  | fresh (stopHandlers : Option (List HandlerId))
  deriving DecidableEq

/-- The start loop of `profile` (lines 219–224), iterating the registered
handlers from the last index down to 0 — here, over the reversed list —
invoking each (`.start` event) and `unshift`ing its stop callback onto the
accumulated `stopHandlers` (`stopHandlers = stopHandlers || []` is
`acc.getD []`).  Returns the final accumulator and the start events in
chronological order. -/
def goStarts {S : Type} (name : String) (state : S) :
    List HandlerId → Option (List HandlerId) →
      Option (List HandlerId) × List (ProfEvent S)
  | [], acc => (acc, [])
  | h :: rest, acc =>
    let out := goStarts name state rest (some (h :: acc.getD []))
    (out.1, ProfEvent.start h name state :: out.2)

/-- `profile(name, state)` (lines 214–235): when profiling is enabled and
the registry has an entry for `name`, run the start loop and return a fresh
session over the collected stop handlers; otherwise return the shared no-op
`defaultProfiler`.  The registry itself is not modified; the function returns
the start events it performed together with the session. -/
def profile {S : Type} (s : RelayState) (name : String) (state : S) :
    List (ProfEvent S) × Session :=
  if s.enableProfile then
    match lookupName s.profileHandlersByName name with
    | some profileHandlers =>
      let out := goStarts name state profileHandlers.reverse none
      (out.2, Session.fresh out.1)
    | none => ([], Session.defaultProfiler)
  else ([], Session.defaultProfiler)

/-- `stop()` of a session (lines 226–230 and line 27): the no-op default
session and a fresh session with no collected stop handlers invoke nothing;
otherwise every collected stop callback is invoked, in list order.  Returns
the stop events performed by this one call. -/
def Session.stop {S : Type} : Session → List (ProfEvent S)
  | .defaultProfiler => []
  | .fresh none => []
  | .fresh (some stopHandlers) => stopHandlers.map ProfEvent.stop

/-- Unfolding of the start loop when the accumulator is already an array. -/
theorem goStarts_some {S : Type} (name : String) (state : S) :
    ∀ (l : List HandlerId) (xs : List HandlerId),
      goStarts name state l (some xs) =
        (some (l.reverse ++ xs), l.map (fun h => ProfEvent.start h name state)) := by
  intro l
  induction l with
  | nil => intro xs; rfl
  | cons h rest ih =>
    intro xs
    simp only [goStarts, Option.getD, ih (h :: xs), List.reverse_cons, List.map_cons,
      List.append_assoc, List.cons_append, List.nil_append]

/-- The start loop on a nonempty list starting from `undefined`: the
accumulated stop handlers are the reverse of the traversal order, and one
start event is performed per handler in traversal order. -/
theorem goStarts_none {S : Type} (name : String) (state : S)
    (l : List HandlerId) (hne : l ≠ []) :
    goStarts name state l none =
      (some l.reverse, l.map (fun h => ProfEvent.start h name state)) := by
  match l with
  | [] => exact absurd rfl hne
  | h :: rest =>
    simp only [goStarts, Option.getD, goStarts_some name state rest [h],
      List.reverse_cons, List.map_cons]

/-- Updating the list stored under a key changes no key. -/
theorem hasKey_updateName (m : List (String × List HandlerId)) (name n' : String)
    (f : List HandlerId → List HandlerId) :
    hasKey (updateName m name f) n' = hasKey m n' := by
  induction m with
  | nil => rfl
  | cons e rest ih =>
    rcases e with ⟨key, val⟩
    by_cases he : key = name
    · subst he
      by_cases hn : key = n'
      · subst hn
        simp [hasKey, updateName, lookupName]
      · simp only [hasKey, updateName, List.map_cons, lookupName] at ih ⊢
        simp [hn, ih]
    · by_cases hn : key = n'
      · subst hn
        simp [hasKey, updateName, lookupName, he]
      · simp only [hasKey, updateName, List.map_cons, lookupName] at ih ⊢
        simp [he, hn, ih]

/-- Appending a fresh entry at the end creates exactly that key. -/
theorem hasKey_append_key (m : List (String × List HandlerId)) (name n' : String)
    (l : List HandlerId) :
    hasKey (m ++ [(name, l)]) n' = (hasKey m n' || n' == name) := by
  induction m with
  | nil =>
    by_cases hn : name = n'
    · subst hn
      simp [hasKey, lookupName]
    · have hn' : ¬n' = name := fun h => hn h.symm
      simp [hasKey, lookupName, hn, beq_iff_eq, hn']
  | cons e rest ih =>
    rcases e with ⟨key, val⟩
    by_cases hn : key = n'
    · subst hn
      simp [hasKey, lookupName]
    · simp only [hasKey, List.cons_append, lookupName] at ih ⊢
      simp [hn, ih]

/-- `ensureKey` creates exactly the requested key (a no-op if present). -/
theorem hasKey_ensureKey (m : List (String × List HandlerId)) (name n' : String) :
    hasKey (ensureKey m name) n' = (hasKey m n' || n' == name) := by
  unfold ensureKey
  by_cases hk : hasKey m name
  · rw [if_pos hk]
    by_cases hn : n' = name
    · subst hn; simp [hk]
    · simp [beq_iff_eq, hn]
  · rw [if_neg hk]
    exact hasKey_append_key m name n' []

/-! ## Claim theorems for the registry and profile engine -/

/-- C8, counterexample to the claimed key-creation policy: `instrument` is
not an attach operation, yet its registry effect creates the key for its name
in `aggregateHandlersByName` (with an empty handler sequence). -/
theorem instrument_creates_key_counterexample :
    lookupName (RelayState.mk [] [] true).aggregateHandlersByName "x" = none ∧
    lookupName (instrumentRegistry (RelayState.mk [] [] true) "x").aggregateHandlersByName
        "x" = some [] := by
  exact ⟨rfl, rfl⟩

/-- C8 (amended): registry keys are created lazily — a key for `name` in the
aggregate registry appears exactly on `attachAggregateHandler(name, ·)` or on
`instrument(name, ·)`; a key in the profile registry appears exactly on
`attachProfileHandler(name, ·)` with profiling enabled; the detach
operations, `setEnableProfile` (and `profile`, which does not modify the
state at all) create no key anywhere. -/
theorem registry_key_creation (s : RelayState) (name n' : String)
    (handler : HandlerId) (b : Bool) :
    (hasKey (instrumentRegistry s name).aggregateHandlersByName n' =
      (hasKey s.aggregateHandlersByName n' || n' == name)) ∧
    ((instrumentRegistry s name).profileHandlersByName = s.profileHandlersByName) ∧
    (hasKey (attachAggregateHandler s name handler).aggregateHandlersByName n' =
      (hasKey s.aggregateHandlersByName n' || n' == name)) ∧
    ((attachAggregateHandler s name handler).profileHandlersByName =
      s.profileHandlersByName) ∧
    (hasKey (detachAggregateHandler s name handler).aggregateHandlersByName n' =
      hasKey s.aggregateHandlersByName n') ∧
    ((detachAggregateHandler s name handler).profileHandlersByName =
      s.profileHandlersByName) ∧
    (hasKey (attachProfileHandler s name handler).profileHandlersByName n' =
      (hasKey s.profileHandlersByName n' || (s.enableProfile && n' == name))) ∧
    ((attachProfileHandler s name handler).aggregateHandlersByName =
      s.aggregateHandlersByName) ∧
    (hasKey (detachProfileHandler s name handler).profileHandlersByName n' =
      hasKey s.profileHandlersByName n') ∧
    ((detachProfileHandler s name handler).aggregateHandlersByName =
      s.aggregateHandlersByName) ∧
    ((setEnableProfile s b).aggregateHandlersByName = s.aggregateHandlersByName) ∧
    ((setEnableProfile s b).profileHandlersByName = s.profileHandlersByName) := by
  refine ⟨?_, rfl, ?_, rfl, ?_, ?_, ?_, ?_, ?_, ?_, rfl, rfl⟩
  · simp [instrumentRegistry, hasKey_ensureKey]
  · simp [attachAggregateHandler, hasKey_updateName, hasKey_ensureKey]
  · by_cases hk : hasKey s.aggregateHandlersByName name = true <;>
      simp [detachAggregateHandler, hk, hasKey_updateName]
  · by_cases hk : hasKey s.aggregateHandlersByName name = true <;>
      simp [detachAggregateHandler, hk]
  · cases hen : s.enableProfile <;>
      simp [attachProfileHandler, hen, hasKey_updateName, hasKey_ensureKey]
  · cases hen : s.enableProfile <;> simp [attachProfileHandler, hen]
  · cases hen : s.enableProfile
    · simp [detachProfileHandler, hen]
    · by_cases hk : hasKey s.profileHandlersByName name = true <;>
        simp [detachProfileHandler, hen, hk, hasKey_updateName]
  · cases hen : s.enableProfile
    · simp [detachProfileHandler, hen]
    · by_cases hk : hasKey s.profileHandlersByName name = true <;>
        simp [detachProfileHandler, hen, hk]

/-- C4: with profiling enabled and handlers `L = [H1, ..., Hn]` registered
under `name` in that order, `profile(name, state)` starts the handlers in
reverse registration order (`Hn` first, `H1` last), each with exactly
`(name, state)`, and collects the stop callbacks so that the session's
`stop()` invokes them in forward registration order (`H1`'s stop first,
`Hn`'s stop last). -/
theorem profile_start_reverse_stop_forward {S : Type} (s : RelayState)
    (name : String) (state : S) (L : List HandlerId)
    (hen : s.enableProfile = true)
    (hl : lookupName s.profileHandlersByName name = some L)
    (hne : L ≠ []) :
    profile s name state =
      (L.reverse.map (fun h => ProfEvent.start h name state),
        Session.fresh (some L)) ∧
    Session.stop (S := S) (Session.fresh (some L)) = L.map ProfEvent.stop := by
  constructor
  · have hrev : L.reverse ≠ [] := by simpa using hne
    simp only [profile, hen, if_true, hl]
    rw [goStarts_none name state L.reverse hrev]
    simp
  · rfl

/-- Witness for C4 with two handlers registered under one name. -/
theorem profile_start_reverse_stop_forward_witness :
    profile (RelayState.mk [] [("y", [1, 2])] true) "y" (5 : Nat) =
      ([ProfEvent.start 2 "y" 5, ProfEvent.start 1 "y" 5],
        Session.fresh (some [1, 2])) ∧
    Session.stop (S := Nat) (Session.fresh (some [1, 2])) =
      [ProfEvent.stop 1, ProfEvent.stop 2] :=
  profile_start_reverse_stop_forward (RelayState.mk [] [("y", [1, 2])] true)
    "y" 5 [1, 2] rfl rfl (by decide)

/-- C5, counterexample to idempotence of `stop()`: with one collected stop
callback, calling `stop()` twice invokes it twice, not exactly once. -/
theorem stop_not_idempotent_counterexample :
    (Session.stop (S := Unit) (profile (RelayState.mk [] [("y", [0])] true) "y" ()).2 ++
      Session.stop (S := Unit)
        (profile (RelayState.mk [] [("y", [0])] true) "y" ()).2).count
      (ProfEvent.stop 0) = 2 ∧
    ¬((Session.stop (S := Unit) (profile (RelayState.mk [] [("y", [0])] true) "y" ()).2 ++
      Session.stop (S := Unit)
        (profile (RelayState.mk [] [("y", [0])] true) "y" ()).2).count
      (ProfEvent.stop 0) = 1) := by
  exact ⟨by decide, by decide⟩

/-- C5 (amended): each call of the session's `stop()` invokes every collected
stop callback exactly once, in forward registration order; a second `stop()`
call repeats all of those invocations rather than being a no-op (the source
does not deduplicate). -/
theorem stop_invokes_collected_callbacks_each_call {S : Type} (s : RelayState)
    (name : String) (state : S) (L : List HandlerId)
    (hen : s.enableProfile = true)
    (hl : lookupName s.profileHandlersByName name = some L)
    (hne : L ≠ []) :
    Session.stop (S := S) (profile s name state).2 = L.map ProfEvent.stop ∧
    Session.stop (S := S) (profile s name state).2 ++
        Session.stop (S := S) (profile s name state).2 =
      L.map ProfEvent.stop ++ L.map ProfEvent.stop := by
  have hses : (profile s name state).2 = Session.fresh (some L) := by
    have hrev : L.reverse ≠ [] := by simpa using hne
    simp only [profile, hen, if_true, hl]
    rw [goStarts_none name state L.reverse hrev]
    simp
  rw [hses]
  exact ⟨rfl, rfl⟩

/-- Witness for the amended C5. -/
theorem stop_invokes_collected_callbacks_each_call_witness :
    Session.stop (S := Nat)
        (profile (RelayState.mk [] [("y", [7, 8])] true) "y" (0 : Nat)).2 =
      [ProfEvent.stop 7, ProfEvent.stop 8] ∧
    Session.stop (S := Nat)
          (profile (RelayState.mk [] [("y", [7, 8])] true) "y" (0 : Nat)).2 ++
        Session.stop (S := Nat)
          (profile (RelayState.mk [] [("y", [7, 8])] true) "y" (0 : Nat)).2 =
      [ProfEvent.stop 7, ProfEvent.stop 8] ++ [ProfEvent.stop 7, ProfEvent.stop 8] :=
  stop_invokes_collected_callbacks_each_call (RelayState.mk [] [("y", [7, 8])] true)
    "y" 0 [7, 8] rfl rfl (by decide)

/-- C6: after `setEnableProfile(false)`, `profile(name, state)` returns the
no-op `defaultProfiler` session even though the handlers `L` remain
registered under `name`; after `setEnableProfile(true)` the same call fans
out to the still-registered handlers again. -/
theorem toggle_enable_profile_gates_fanout {S : Type} (s : RelayState)
    (name : String) (state : S) (L : List HandlerId)
    (hl : lookupName s.profileHandlersByName name = some L)
    (hne : L ≠ []) :
    profile (setEnableProfile s false) name state = ([], Session.defaultProfiler) ∧
    profile (setEnableProfile (setEnableProfile s false) true) name state =
      (L.reverse.map (fun h => ProfEvent.start h name state),
        Session.fresh (some L)) := by
  constructor
  · simp [profile, setEnableProfile]
  · have hrev : L.reverse ≠ [] := by simpa using hne
    simp only [profile, setEnableProfile, if_true]
    rw [show (⟨s.aggregateHandlersByName, s.profileHandlersByName, true⟩ :
        RelayState).profileHandlersByName = s.profileHandlersByName from rfl] at *
    simp only [hl]
    rw [goStarts_none name state L.reverse hrev]
    simp

/-- Witness for C6. -/
theorem toggle_enable_profile_gates_fanout_witness :
    profile (setEnableProfile (RelayState.mk [] [("y", [4])] true) false) "y"
        (9 : Nat) = ([], Session.defaultProfiler) ∧
    profile (setEnableProfile
        (setEnableProfile (RelayState.mk [] [("y", [4])] true) false) true) "y"
        (9 : Nat) =
      ([ProfEvent.start 4 "y" 9], Session.fresh (some [4])) :=
  toggle_enable_profile_gates_fanout (RelayState.mk [] [("y", [4])] true)
    "y" 9 [4] rfl (by decide)

/-- C7: when the global enable flag is `false`, `attachProfileHandler` and
`detachProfileHandler` leave the whole module state — in particular the
profile-handler registry, for every name — completely unchanged. -/
theorem profile_attach_detach_noop_when_disabled (s : RelayState) (name : String)
    (handler : HandlerId) (hdis : s.enableProfile = false) :
    attachProfileHandler s name handler = s ∧
      detachProfileHandler s name handler = s := by
  constructor <;> simp [attachProfileHandler, detachProfileHandler, hdis]

/-- Witness for C7. -/
theorem profile_attach_detach_noop_when_disabled_witness :
    attachProfileHandler (RelayState.mk [("a", [])] [("y", [3])] false) "z" 6 =
      RelayState.mk [("a", [])] [("y", [3])] false ∧
    detachProfileHandler (RelayState.mk [("a", [])] [("y", [3])] false) "y" 3 =
      RelayState.mk [("a", [])] [("y", [3])] false := by
  have h := profile_attach_detach_noop_when_disabled
    (RelayState.mk [("a", [])] [("y", [3])] false) "z" 6 rfl
  have h' := profile_attach_detach_noop_when_disabled
    (RelayState.mk [("a", [])] [("y", [3])] false) "y" 3 rfl
  exact ⟨h.1, h'.2⟩

end RelayProfiler
